import Mathlib

/-!
Verification of the `PoissonLattice` relaxation core
(`src/PoissonLattice.cpp` / `src/PoissonLattice.hpp` and the driving loop in
`main.cpp`).

The lattice is embedded shallowly: the C++ `std::vector<double>` buffers become
`List Rat` (exact rational arithmetic standing in for IEEE doubles; every
claim here is about exact stencil algebra, index bookkeeping and frame
conditions, none of which depend on rounding), the `int` dimensions become
`Nat` for a constructed lattice (the constructor itself is modelled over `Int`
to capture its behaviour on non-positive requests), and the three relaxation
sweeps become `List.foldl` over the interior-coordinate list in the exact
iteration order of the C++ `for` nests.
-/

/-- Shallow embedding of the `PoissonLattice` class: dimensions, physical
constants and the two flat buffers (`m_chargeDensity`, `m_potential`). -/
structure PoissonLattice where
  m_xRange : Nat
  m_yRange : Nat
  m_zRange : Nat
  m_permativity : Rat
  m_dx : Rat
  m_chargeDensity : List Rat
  m_potential : List Rat
deriving DecidableEq

/-- The flat index used by `PoissonLattice::operator()` :
`i + j*m_xRange + k*m_xRange*m_yRange`. -/
def potFlatIndex (L : PoissonLattice) (i j k : Nat) : Nat :=
  i + j * L.m_xRange + k * L.m_xRange * L.m_yRange

/-- The flat index used by `PoissonLattice::getChargeDensity` and
`setChargeDensity` (textually the same formula, written separately in the
source). -/
def chargeFlatIndex (L : PoissonLattice) (i j k : Nat) : Nat :=
  i + j * L.m_xRange + k * L.m_xRange * L.m_yRange

/-- Read access `lattice(i,j,k)` to the potential buffer
(`m_potential[i + j*m_xRange + k*m_xRange*m_yRange]`). -/
def PoissonLattice.potAt (L : PoissonLattice) (i j k : Nat) : Rat :=
  L.m_potential.getD (potFlatIndex L i j k) 0

/-- Write access `lattice(i,j,k) = v` to the potential buffer. -/
def PoissonLattice.setPot (L : PoissonLattice) (i j k : Nat) (v : Rat) :
    PoissonLattice :=
  { L with m_potential := L.m_potential.set (potFlatIndex L i j k) v }

/-- `PoissonLattice::getChargeDensity(i,j,k)`. -/
def PoissonLattice.getChargeDensity (L : PoissonLattice) (i j k : Nat) : Rat :=
  L.m_chargeDensity.getD (chargeFlatIndex L i j k) 0

/-- `PoissonLattice::setChargeDensity(i,j,k,charge)`. -/
def PoissonLattice.setChargeDensity (L : PoissonLattice) (i j k : Nat)
    (charge : Rat) : PoissonLattice :=
  { L with m_chargeDensity := L.m_chargeDensity.set (chargeFlatIndex L i j k) charge }

/-- `PoissonLattice::nextValueJacobi(i,j,k)`: the 6-point stencil average plus
the source contribution `(dx^2/permittivity) * rho(i,j,k)`, divided by 6. -/
def PoissonLattice.nextValueJacobi (L : PoissonLattice) (i j k : Nat) : Rat :=
  (L.potAt (i+1) j k + L.potAt (i-1) j k
    + L.potAt i (j+1) k + L.potAt i (j-1) k
    + L.potAt i j (k+1) + L.potAt i j (k-1)
    + (L.m_dx ^ 2 / L.m_permativity) * L.getChargeDensity i j k) / 6

/-- The interior coordinates visited by the update loops, in the source's
iteration order: `for i in [1, xRange-1)`, inside it `j`, inside it `k`. -/
def interiorCoords (L : PoissonLattice) : List (Nat × Nat × Nat) :=
  (List.range' 1 (L.m_xRange - 2)).flatMap fun i =>
    (List.range' 1 (L.m_yRange - 2)).flatMap fun j =>
      (List.range' 1 (L.m_zRange - 2)).map fun k => (i, j, k)

/-- One cell of `jacobiUpdate`'s loop body: write
`updatedLattice(i,j,k) = currentLattice.nextValueJacobi(i,j,k)` and accumulate
`abs(updatedLattice(i,j,k) - currentLattice(i,j,k))` (the read-back of the
freshly written cell is the value just written). The state carries
`(currentLattice, updatedLattice, convergenceMeasure)`; `currentLattice` is
threaded so that the frame property "the source is never written" is a theorem
about this definition rather than an artefact of the embedding. -/
def jacobiStep (s : PoissonLattice × PoissonLattice × Rat)
    (c : Nat × Nat × Nat) : PoissonLattice × PoissonLattice × Rat :=
  let v := s.1.nextValueJacobi c.1 c.2.1 c.2.2
  (s.1, (s.2.1).setPot c.1 c.2.1 c.2.2 v,
    s.2.2 + |v - s.1.potAt c.1 c.2.1 c.2.2|)

/-- `jacobiUpdate(currentLattice, updatedLattice)`: sweep the interior of the
current lattice, returning the final states of both reference parameters and
the returned convergence measure. -/
def jacobiUpdate (currentLattice updatedLattice : PoissonLattice) :
    PoissonLattice × PoissonLattice × Rat :=
  (interiorCoords currentLattice).foldl jacobiStep
    (currentLattice, updatedLattice, 0)

/-- One cell of `gaussSeidelUpdate`'s loop body, operating in place on the
single lattice threaded through the state together with the accumulated
convergence measure. -/
def gaussSeidelStep (s : PoissonLattice × Rat) (c : Nat × Nat × Nat) :
    PoissonLattice × Rat :=
  let updatedValue := s.1.nextValueJacobi c.1 c.2.1 c.2.2
  let currentValue := s.1.potAt c.1 c.2.1 c.2.2
  (s.1.setPot c.1 c.2.1 c.2.2 updatedValue,
    s.2 + |updatedValue - currentValue|)

/-- `gaussSeidelUpdate(lattice)`. -/
def gaussSeidelUpdate (lattice : PoissonLattice) : PoissonLattice × Rat :=
  (interiorCoords lattice).foldl gaussSeidelStep (lattice, 0)

/-- One cell of `sorUpdate`'s loop body:
`updatedSORValue = (1-sorParameter)*currentValue + sorParameter*updatedGSValue`,
written in place, accumulating `abs(updatedSORValue - currentValue)`. -/
def sorStep (sorParameter : Rat) (s : PoissonLattice × Rat)
    (c : Nat × Nat × Nat) : PoissonLattice × Rat :=
  let currentValue := s.1.potAt c.1 c.2.1 c.2.2
  let updatedGSValue := s.1.nextValueJacobi c.1 c.2.1 c.2.2
  let updatedSORValue := (1 - sorParameter) * currentValue
    + sorParameter * updatedGSValue
  (s.1.setPot c.1 c.2.1 c.2.2 updatedSORValue,
    s.2 + |updatedSORValue - currentValue|)

/-- `sorUpdate(sorParameter, lattice)`. -/
def sorUpdate (sorParameter : Rat) (lattice : PoissonLattice) :
    PoissonLattice × Rat :=
  (interiorCoords lattice).foldl (sorStep sorParameter) (lattice, 0)

/-- `PoissonLattice::PoissonLattice(xRange, yRange, zRange, permativity, dx)`,
modelled over the C++ `int` argument type.  The constructor performs no
validation; it initialises both `std::vector` members with element count
`xRange*yRange*zRange`.  When that signed product is negative its conversion
to the unsigned `size_type` exceeds `max_size()` and the allocation throws,
modelled as `none`; otherwise the members are zero-filled sequences of the
product's length. -/
def PoissonLattice.construct (xRange yRange zRange : Int)
    (permativity dx : Rat) : Option PoissonLattice :=
  if xRange * yRange * zRange < 0 then none
  else some
    { m_xRange := xRange.toNat
      m_yRange := yRange.toNat
      m_zRange := zRange.toNat
      m_permativity := permativity
      m_dx := dx
      m_chargeDensity := List.replicate (xRange * yRange * zRange).toNat 0
      m_potential := List.replicate (xRange * yRange * zRange).toNat 0 }

/-- The interior coordinates in `initialise`'s iteration order: `k` outermost,
then `j`, then `i` (the transpose of the update sweeps' order). -/
def initCoords (L : PoissonLattice) : List (Nat × Nat × Nat) :=
  (List.range' 1 (L.m_zRange - 2)).flatMap fun k =>
    (List.range' 1 (L.m_yRange - 2)).flatMap fun j =>
      (List.range' 1 (L.m_xRange - 2)).map fun i => (i, j, k)

/-- One cell of `initialise`'s loop body: write
`initialValue + noiseDistribution(generator)` and advance the generator.  The
generator/distribution pair is modelled as the abstract sequence `g` of its
successive outputs, indexed by the threaded draw counter. -/
def initStep (initialValue : Rat) (g : Nat → Rat) (s : PoissonLattice × Nat)
    (c : Nat × Nat × Nat) : PoissonLattice × Nat :=
  (s.1.setPot c.1 c.2.1 c.2.2 (initialValue + g s.2), s.2 + 1)

/-- `PoissonLattice::initialise(initialValue, noise, generator)`: one draw per
interior cell, visited with `k` outermost and `i` innermost. -/
def PoissonLattice.initialise (L : PoissonLattice) (initialValue : Rat)
    (g : Nat → Rat) : PoissonLattice :=
  ((initCoords L).foldl (initStep initialValue g) (L, 0)).1

/-- The position in `initialise`'s draw sequence of interior cell `(i,j,k)`:
the cell's rank in the `k`-outermost traversal. -/
def drawIndex (L : PoissonLattice) (i j k : Nat) : Nat :=
  (i - 1) + (j - 1) * (L.m_xRange - 2)
    + (k - 1) * ((L.m_xRange - 2) * (L.m_yRange - 2))

/-- The body of `main`'s Jacobi `while` loop after the update call:
`std::swap(currentLattice, updatedLattice)` — the state seen by the next
iteration is the pair (updated buffer, source buffer). -/
def jacobiLoopStep (s : PoissonLattice × PoissonLattice) :
    (PoissonLattice × PoissonLattice) × Rat :=
  let r := jacobiUpdate s.1 s.2
  ((r.2.1, r.1), r.2.2)

/-- The body of `main`'s Gauss-Seidel `while` loop: no swap, the lattice is
updated in place. -/
def gaussSeidelLoopStep (L : PoissonLattice) : PoissonLattice × Rat :=
  gaussSeidelUpdate L

/-- The body of `main`'s SOR `while` loop: no swap. -/
def sorLoopStep (sorParameter : Rat) (L : PoissonLattice) :
    PoissonLattice × Rat :=
  sorUpdate sorParameter L

/-- `main`'s `while(true)` driving loop, fuelled (the C++ loop has no
iteration cap and can run forever; `none` means the given fuel was exhausted
with every sweep's convergence measure still at or above `precision`).  Each
pass increments the counter, performs one sweep (`step`), and breaks exactly
when the returned measure is strictly below `precision`. -/
def runLoop {σ : Type} (step : σ → σ × Rat) (precision : Rat) :
    Nat → σ → Nat → Option (σ × Nat)
  | 0, _, _ => none
  | Nat.succ fuel, s, counter =>
    let counter' := counter + 1
    let r := step s
    if r.2 < precision then some (r.1, counter')
    else runLoop step precision fuel r.1 counter'

/-- The loop state after `n` complete sweeps. -/
def stateIter {σ : Type} (step : σ → σ × Rat) : Nat → σ → σ
  | 0, s => s
  | Nat.succ n, s => stateIter step n (step s).1

/-- The convergence measure returned by sweep `n+1` (0-indexed: `measureSeq
step s 0` is the first sweep's measure). -/
def measureSeq {σ : Type} (step : σ → σ × Rat) (s : σ) (n : Nat) : Rat :=
  (step (stateIter step n s)).2

/-! ### Basic accessor lemmas -/

lemma setPot_xRange (L : PoissonLattice) (i j k : Nat) (v : Rat) :
    (L.setPot i j k v).m_xRange = L.m_xRange := rfl

lemma setPot_yRange (L : PoissonLattice) (i j k : Nat) (v : Rat) :
    (L.setPot i j k v).m_yRange = L.m_yRange := rfl

lemma potFlatIndex_setPot (L : PoissonLattice) (a b c : Nat) (v : Rat)
    (i j k : Nat) :
    potFlatIndex (L.setPot a b c v) i j k = potFlatIndex L i j k := rfl

lemma potAt_setPot_ne (L : PoissonLattice) {a b c i j k : Nat} (v : Rat)
    (h : potFlatIndex L a b c ≠ potFlatIndex L i j k) :
    (L.setPot a b c v).potAt i j k = L.potAt i j k := by
  simp only [PoissonLattice.potAt, PoissonLattice.setPot, potFlatIndex] at *
  rw [List.getD_eq_getElem?_getD, List.getD_eq_getElem?_getD,
    List.getElem?_set_ne h]

lemma potAt_setPot_self (L : PoissonLattice) {i j k : Nat} (v : Rat)
    (h : potFlatIndex L i j k < L.m_potential.length) :
    (L.setPot i j k v).potAt i j k = v := by
  unfold PoissonLattice.potAt
  rw [potFlatIndex_setPot]
  show (L.m_potential.set (potFlatIndex L i j k) v).getD (potFlatIndex L i j k) 0 = v
  rw [List.getD_eq_getElem?_getD, List.getElem?_set_self h]
  rfl

/-! ### The flat-index mapping -/

lemma addMul_inj {x i i' a a' : Nat} (hi : i < x) (hi' : i' < x)
    (h : i + x * a = i' + x * a') : i = i' ∧ a = a' := by
  have h1 : (i + x * a) % x = i := by
    rw [Nat.add_mul_mod_self_left, Nat.mod_eq_of_lt hi]
  have h2 : (i' + x * a') % x = i' := by
    rw [Nat.add_mul_mod_self_left, Nat.mod_eq_of_lt hi']
  have hii : i = i' := by rw [← h1, ← h2, h]
  have hx : 0 < x := Nat.lt_of_le_of_lt (Nat.zero_le i) hi
  refine ⟨hii, ?_⟩
  have h3 : x * a = x * a' := by omega
  exact Nat.eq_of_mul_eq_mul_left hx h3

lemma potFlatIndex_inj (L : PoissonLattice) {i j k i' j' k' : Nat}
    (hi : i < L.m_xRange) (hj : j < L.m_yRange)
    (hi' : i' < L.m_xRange) (hj' : j' < L.m_yRange)
    (h : potFlatIndex L i j k = potFlatIndex L i' j' k') :
    i = i' ∧ j = j' ∧ k = k' := by
  unfold potFlatIndex at h
  have h2 : i + L.m_xRange * (j + L.m_yRange * k)
      = i' + L.m_xRange * (j' + L.m_yRange * k') := by
    have e1 : i + j * L.m_xRange + k * L.m_xRange * L.m_yRange
        = i + L.m_xRange * (j + L.m_yRange * k) := by ring
    have e2 : i' + j' * L.m_xRange + k' * L.m_xRange * L.m_yRange
        = i' + L.m_xRange * (j' + L.m_yRange * k') := by ring
    rw [← e1, ← e2]; exact h
  obtain ⟨hii, hrest⟩ := addMul_inj hi hi' h2
  obtain ⟨hjj, hkk⟩ := addMul_inj hj hj' hrest
  exact ⟨hii, hjj, hkk⟩

lemma potFlatIndex_lt (L : PoissonLattice) {i j k : Nat}
    (hi : i < L.m_xRange) (hj : j < L.m_yRange) (hk : k < L.m_zRange) :
    potFlatIndex L i j k < L.m_xRange * L.m_yRange * L.m_zRange := by
  unfold potFlatIndex
  have h1 : i + j * L.m_xRange + k * L.m_xRange * L.m_yRange
      < (1 + j + L.m_yRange * k) * L.m_xRange := by
    have e : (1 + j + L.m_yRange * k) * L.m_xRange
        = L.m_xRange + j * L.m_xRange + k * L.m_xRange * L.m_yRange := by ring
    rw [e]; omega
  have h2 : 1 + j + L.m_yRange * k ≤ L.m_yRange * L.m_zRange := by
    have h4 : L.m_yRange + L.m_yRange * k = L.m_yRange * (k + 1) := by ring
    have h5 : L.m_yRange * (k + 1) ≤ L.m_yRange * L.m_zRange :=
      Nat.mul_le_mul (Nat.le_refl _) hk
    omega
  calc i + j * L.m_xRange + k * L.m_xRange * L.m_yRange
      < (1 + j + L.m_yRange * k) * L.m_xRange := h1
    _ ≤ (L.m_yRange * L.m_zRange) * L.m_xRange := Nat.mul_le_mul h2 (Nat.le_refl _)
    _ = L.m_xRange * L.m_yRange * L.m_zRange := by ring

lemma potFlatIndex_surj (L : PoissonLattice) {n : Nat}
    (hn : n < L.m_xRange * L.m_yRange * L.m_zRange) :
    ∃ i j k, i < L.m_xRange ∧ j < L.m_yRange ∧ k < L.m_zRange ∧
      potFlatIndex L i j k = n := by
  have hx : 0 < L.m_xRange := by
    rcases Nat.eq_zero_or_pos L.m_xRange with h | h
    · rw [h] at hn; simp at hn
    · exact h
  have hy : 0 < L.m_yRange := by
    rcases Nat.eq_zero_or_pos L.m_yRange with h | h
    · rw [h] at hn; simp at hn
    · exact h
  have hxy : 0 < L.m_xRange * L.m_yRange := Nat.mul_pos hx hy
  refine ⟨n % L.m_xRange, (n / L.m_xRange) % L.m_yRange,
    n / (L.m_xRange * L.m_yRange), Nat.mod_lt _ hx, Nat.mod_lt _ hy, ?_, ?_⟩
  · rw [Nat.div_lt_iff_lt_mul hxy]
    calc n < L.m_xRange * L.m_yRange * L.m_zRange := hn
      _ = L.m_zRange * (L.m_xRange * L.m_yRange) := by ring
  · unfold potFlatIndex
    have e0 : n / (L.m_xRange * L.m_yRange) = n / L.m_xRange / L.m_yRange :=
      (Nat.div_div_eq_div_mul n L.m_xRange L.m_yRange).symm
    rw [e0]
    have e1 : n % L.m_xRange + n / L.m_xRange % L.m_yRange * L.m_xRange
        + n / L.m_xRange / L.m_yRange * L.m_xRange * L.m_yRange
        = n % L.m_xRange + L.m_xRange * (n / L.m_xRange % L.m_yRange
          + L.m_yRange * (n / L.m_xRange / L.m_yRange)) := by ring
    rw [e1, Nat.mod_add_div (n / L.m_xRange) L.m_yRange,
      Nat.mod_add_div n L.m_xRange]

/-! ### Interior coordinate lists -/

lemma mem_interiorCoords (L : PoissonLattice) {c : Nat × Nat × Nat} :
    c ∈ interiorCoords L ↔
      1 ≤ c.1 ∧ c.1 + 1 < L.m_xRange ∧ 1 ≤ c.2.1 ∧ c.2.1 + 1 < L.m_yRange ∧
      1 ≤ c.2.2 ∧ c.2.2 + 1 < L.m_zRange := by
  obtain ⟨i, j, k⟩ := c
  simp only [interiorCoords, List.mem_flatMap, List.mem_map, List.mem_range'_1]
  constructor
  · rintro ⟨i', ⟨hi1, hi2⟩, j', ⟨hj1, hj2⟩, k', ⟨hk1, hk2⟩, heq⟩
    cases heq
    refine ⟨hi1, by omega, hj1, by omega, hk1, by omega⟩
  · rintro ⟨hi1, hi2, hj1, hj2, hk1, hk2⟩
    exact ⟨i, ⟨hi1, by omega⟩, j, ⟨hj1, by omega⟩, k, ⟨hk1, by omega⟩, rfl⟩

lemma mem_initCoords (L : PoissonLattice) {c : Nat × Nat × Nat} :
    c ∈ initCoords L ↔
      1 ≤ c.1 ∧ c.1 + 1 < L.m_xRange ∧ 1 ≤ c.2.1 ∧ c.2.1 + 1 < L.m_yRange ∧
      1 ≤ c.2.2 ∧ c.2.2 + 1 < L.m_zRange := by
  obtain ⟨i, j, k⟩ := c
  simp only [initCoords, List.mem_flatMap, List.mem_map, List.mem_range'_1]
  constructor
  · rintro ⟨k', ⟨hk1, hk2⟩, j', ⟨hj1, hj2⟩, i', ⟨hi1, hi2⟩, heq⟩
    cases heq
    refine ⟨hi1, by omega, hj1, by omega, hk1, by omega⟩
  · rintro ⟨hi1, hi2, hj1, hj2, hk1, hk2⟩
    exact ⟨k, ⟨hk1, by omega⟩, j, ⟨hj1, by omega⟩, i, ⟨hi1, by omega⟩, rfl⟩

/-! ### Generic sweep lemmas

Each loop body writes the potential at the visited cell and leaves every other
buffer entry alone; these lemmas capture that once, abstracting over the loop
state via `latOf` (the component of the fold state holding the lattice being
written). -/

lemma foldl_potAt_of_ne {α : Type} (step : α → Nat × Nat × Nat → α)
    (latOf : α → PoissonLattice)
    (hstep : ∀ s c, ∃ v, latOf (step s c) = (latOf s).setPot c.1 c.2.1 c.2.2 v)
    (cs : List (Nat × Nat × Nat)) :
    ∀ (s : α) (ib jb kb : Nat),
      (∀ c ∈ cs, potFlatIndex (latOf s) c.1 c.2.1 c.2.2
        ≠ potFlatIndex (latOf s) ib jb kb) →
      (latOf (cs.foldl step s)).potAt ib jb kb = (latOf s).potAt ib jb kb := by
  induction cs with
  | nil => intro s ib jb kb _; rfl
  | cons c cs ih =>
    intro s ib jb kb hne
    obtain ⟨v, hv⟩ := hstep s c
    have hidx : ∀ i j k : Nat,
        potFlatIndex (latOf (step s c)) i j k = potFlatIndex (latOf s) i j k := by
      intro i j k; rw [hv, potFlatIndex_setPot]
    rw [List.foldl_cons]
    rw [ih (step s c) ib jb kb (by
      intro c' hc'; rw [hidx, hidx]
      exact hne c' (List.mem_cons_of_mem _ hc'))]
    rw [hv]
    exact potAt_setPot_ne _ _ (hne c (List.mem_cons_self c cs))

lemma foldl_frame {α : Type} (step : α → Nat × Nat × Nat → α)
    (latOf : α → PoissonLattice)
    (hstep : ∀ s c, ∃ v, latOf (step s c) = (latOf s).setPot c.1 c.2.1 c.2.2 v)
    (cs : List (Nat × Nat × Nat)) :
    ∀ s : α,
      (latOf (cs.foldl step s)).m_xRange = (latOf s).m_xRange ∧
      (latOf (cs.foldl step s)).m_yRange = (latOf s).m_yRange ∧
      (latOf (cs.foldl step s)).m_zRange = (latOf s).m_zRange ∧
      (latOf (cs.foldl step s)).m_permativity = (latOf s).m_permativity ∧
      (latOf (cs.foldl step s)).m_dx = (latOf s).m_dx ∧
      (latOf (cs.foldl step s)).m_chargeDensity = (latOf s).m_chargeDensity ∧
      (latOf (cs.foldl step s)).m_potential.length
        = (latOf s).m_potential.length := by
  induction cs with
  | nil => intro s; exact ⟨rfl, rfl, rfl, rfl, rfl, rfl, rfl⟩
  | cons c cs ih =>
    intro s
    obtain ⟨v, hv⟩ := hstep s c
    have h := ih (step s c)
    rw [List.foldl_cons]
    refine ⟨?_, ?_, ?_, ?_, ?_, ?_, ?_⟩
    · rw [h.1, hv]; rfl
    · rw [h.2.1, hv]; rfl
    · rw [h.2.2.1, hv]; rfl
    · rw [h.2.2.2.1, hv]; rfl
    · rw [h.2.2.2.2.1, hv]; rfl
    · rw [h.2.2.2.2.2.1, hv]; rfl
    · rw [h.2.2.2.2.2.2, hv]
      simp [PoissonLattice.setPot]

/-! ### Interior writes never alias a boundary cell -/

lemma interior_ne_boundary (L : PoissonLattice) {i j k ib jb kb : Nat}
    (h1 : 1 ≤ i) (h2 : i + 1 < L.m_xRange) (h3 : 1 ≤ j)
    (h4 : j + 1 < L.m_yRange) (h5 : 1 ≤ k) (h6 : k + 1 < L.m_zRange)
    (hib : ib < L.m_xRange) (hjb : jb < L.m_yRange)
    (hface : ib = 0 ∨ ib + 1 = L.m_xRange ∨ jb = 0 ∨ jb + 1 = L.m_yRange ∨
      kb = 0 ∨ kb + 1 = L.m_zRange) :
    potFlatIndex L i j k ≠ potFlatIndex L ib jb kb := by
  intro heq
  obtain ⟨hi, hj, hk⟩ :=
    potFlatIndex_inj L (by omega) (by omega) hib hjb heq
  omega

/-- The first reference parameter of `jacobiUpdate` is only ever read: the
fold keeps it verbatim. -/
lemma foldl_jacobiStep_fst (cs : List (Nat × Nat × Nat)) :
    ∀ s : PoissonLattice × PoissonLattice × Rat,
      (cs.foldl jacobiStep s).1 = s.1 := by
  induction cs with
  | nil => intro s; rfl
  | cons c cs ih => intro s; rw [List.foldl_cons]; exact ih (jacobiStep s c)

lemma jacobiUpdate_fst (currentLattice updatedLattice : PoissonLattice) :
    (jacobiUpdate currentLattice updatedLattice).1 = currentLattice :=
  foldl_jacobiStep_fst _ _

/-! ### Per-sweep boundary preservation -/

lemma gaussSeidelUpdate_potAt_boundary (L : PoissonLattice) {ib jb kb : Nat}
    (hib : ib < L.m_xRange) (hjb : jb < L.m_yRange)
    (hface : ib = 0 ∨ ib + 1 = L.m_xRange ∨ jb = 0 ∨ jb + 1 = L.m_yRange ∨
      kb = 0 ∨ kb + 1 = L.m_zRange) :
    (gaussSeidelUpdate L).1.potAt ib jb kb = L.potAt ib jb kb := by
  unfold gaussSeidelUpdate
  refine foldl_potAt_of_ne gaussSeidelStep Prod.fst
    (fun s c => ⟨_, rfl⟩) _ (L, 0) ib jb kb ?_
  intro c hc
  obtain ⟨h1, h2, h3, h4, h5, h6⟩ := (mem_interiorCoords L).1 hc
  exact interior_ne_boundary L h1 h2 h3 h4 h5 h6 hib hjb hface

lemma sorUpdate_potAt_boundary (w : Rat) (L : PoissonLattice) {ib jb kb : Nat}
    (hib : ib < L.m_xRange) (hjb : jb < L.m_yRange)
    (hface : ib = 0 ∨ ib + 1 = L.m_xRange ∨ jb = 0 ∨ jb + 1 = L.m_yRange ∨
      kb = 0 ∨ kb + 1 = L.m_zRange) :
    (sorUpdate w L).1.potAt ib jb kb = L.potAt ib jb kb := by
  unfold sorUpdate
  refine foldl_potAt_of_ne (sorStep w) Prod.fst
    (fun s c => ⟨_, rfl⟩) _ (L, 0) ib jb kb ?_
  intro c hc
  obtain ⟨h1, h2, h3, h4, h5, h6⟩ := (mem_interiorCoords L).1 hc
  exact interior_ne_boundary L h1 h2 h3 h4 h5 h6 hib hjb hface

lemma jacobiUpdate_potAt_boundary (cur upd : PoissonLattice) {ib jb kb : Nat}
    (hib : ib < upd.m_xRange) (hjb : jb < upd.m_yRange)
    (hxeq : upd.m_xRange = cur.m_xRange) (hyeq : upd.m_yRange = cur.m_yRange)
    (hzeq : upd.m_zRange = cur.m_zRange)
    (hface : ib = 0 ∨ ib + 1 = upd.m_xRange ∨ jb = 0 ∨ jb + 1 = upd.m_yRange ∨
      kb = 0 ∨ kb + 1 = upd.m_zRange) :
    (jacobiUpdate cur upd).2.1.potAt ib jb kb = upd.potAt ib jb kb := by
  unfold jacobiUpdate
  refine foldl_potAt_of_ne jacobiStep (fun s => s.2.1)
    (fun s c => ⟨_, rfl⟩) _ (cur, upd, 0) ib jb kb ?_
  intro c hc
  obtain ⟨h1, h2, h3, h4, h5, h6⟩ := (mem_interiorCoords cur).1 hc
  exact interior_ne_boundary upd h1 (by omega) h3 (by omega) h5 (by omega)
    hib hjb hface

lemma initialise_potAt_boundary (L : PoissonLattice) (v0 : Rat) (g : Nat → Rat)
    {ib jb kb : Nat}
    (hib : ib < L.m_xRange) (hjb : jb < L.m_yRange)
    (hface : ib = 0 ∨ ib + 1 = L.m_xRange ∨ jb = 0 ∨ jb + 1 = L.m_yRange ∨
      kb = 0 ∨ kb + 1 = L.m_zRange) :
    (L.initialise v0 g).potAt ib jb kb = L.potAt ib jb kb := by
  unfold PoissonLattice.initialise
  refine foldl_potAt_of_ne (initStep v0 g) Prod.fst
    (fun s c => ⟨_, rfl⟩) _ (L, 0) ib jb kb ?_
  intro c hc
  obtain ⟨h1, h2, h3, h4, h5, h6⟩ := (mem_initCoords L).1 hc
  exact interior_ne_boundary L h1 h2 h3 h4 h5 h6 hib hjb hface

/-! ### Per-sweep frame conditions -/

lemma gaussSeidelUpdate_frame (L : PoissonLattice) :
    (gaussSeidelUpdate L).1.m_xRange = L.m_xRange ∧
    (gaussSeidelUpdate L).1.m_yRange = L.m_yRange ∧
    (gaussSeidelUpdate L).1.m_zRange = L.m_zRange ∧
    (gaussSeidelUpdate L).1.m_permativity = L.m_permativity ∧
    (gaussSeidelUpdate L).1.m_dx = L.m_dx ∧
    (gaussSeidelUpdate L).1.m_chargeDensity = L.m_chargeDensity ∧
    (gaussSeidelUpdate L).1.m_potential.length = L.m_potential.length :=
  foldl_frame gaussSeidelStep Prod.fst (fun s c => ⟨_, rfl⟩) _ (L, 0)

lemma sorUpdate_frame (w : Rat) (L : PoissonLattice) :
    (sorUpdate w L).1.m_xRange = L.m_xRange ∧
    (sorUpdate w L).1.m_yRange = L.m_yRange ∧
    (sorUpdate w L).1.m_zRange = L.m_zRange ∧
    (sorUpdate w L).1.m_permativity = L.m_permativity ∧
    (sorUpdate w L).1.m_dx = L.m_dx ∧
    (sorUpdate w L).1.m_chargeDensity = L.m_chargeDensity ∧
    (sorUpdate w L).1.m_potential.length = L.m_potential.length :=
  foldl_frame (sorStep w) Prod.fst (fun s c => ⟨_, rfl⟩) _ (L, 0)

lemma jacobiUpdate_snd_frame (cur upd : PoissonLattice) :
    (jacobiUpdate cur upd).2.1.m_xRange = upd.m_xRange ∧
    (jacobiUpdate cur upd).2.1.m_yRange = upd.m_yRange ∧
    (jacobiUpdate cur upd).2.1.m_zRange = upd.m_zRange ∧
    (jacobiUpdate cur upd).2.1.m_permativity = upd.m_permativity ∧
    (jacobiUpdate cur upd).2.1.m_dx = upd.m_dx ∧
    (jacobiUpdate cur upd).2.1.m_chargeDensity = upd.m_chargeDensity ∧
    (jacobiUpdate cur upd).2.1.m_potential.length = upd.m_potential.length :=
  foldl_frame jacobiStep (fun s => s.2.1) (fun s c => ⟨_, rfl⟩) _ (cur, upd, 0)

lemma initialise_frame (L : PoissonLattice) (v0 : Rat) (g : Nat → Rat) :
    (L.initialise v0 g).m_xRange = L.m_xRange ∧
    (L.initialise v0 g).m_yRange = L.m_yRange ∧
    (L.initialise v0 g).m_zRange = L.m_zRange ∧
    (L.initialise v0 g).m_permativity = L.m_permativity ∧
    (L.initialise v0 g).m_dx = L.m_dx ∧
    (L.initialise v0 g).m_chargeDensity = L.m_chargeDensity ∧
    (L.initialise v0 g).m_potential.length = L.m_potential.length :=
  foldl_frame (initStep v0 g) Prod.fst (fun s c => ⟨_, rfl⟩) _ (L, 0)

/-! ### The value written by a Jacobi sweep at an interior cell -/

lemma foldl_jacobiStep_potAt_written (cur : PoissonLattice)
    (cs : List (Nat × Nat × Nat)) :
    ∀ (s : PoissonLattice × PoissonLattice × Rat) (i j k : Nat),
      s.1 = cur →
      s.2.1.m_xRange = cur.m_xRange →
      s.2.1.m_yRange = cur.m_yRange →
      potFlatIndex s.2.1 i j k < s.2.1.m_potential.length →
      (i, j, k) ∈ cs →
      (∀ c ∈ cs, c.1 < cur.m_xRange ∧ c.2.1 < cur.m_yRange) →
      (cs.foldl jacobiStep s).2.1.potAt i j k = cur.nextValueJacobi i j k := by
  induction cs with
  | nil => intro s i j k _ _ _ _ hmem _; exact absurd hmem (List.not_mem_nil _)
  | cons c cs ih =>
    intro s i j k hcur hx hy hlen hmem hall
    rw [List.foldl_cons]
    by_cases hmem' : (i, j, k) ∈ cs
    · refine ih (jacobiStep s c) i j k ?_ hx hy ?_ hmem' ?_
      · rw [show (jacobiStep s c).1 = s.1 from rfl, hcur]
      · show potFlatIndex (jacobiStep s c).2.1 i j k
          < (jacobiStep s c).2.1.m_potential.length
        have he : (jacobiStep s c).2.1.m_potential
            = s.2.1.m_potential.set (potFlatIndex s.2.1 c.1 c.2.1 c.2.2)
              (s.1.nextValueJacobi c.1 c.2.1 c.2.2) := rfl
        rw [he, List.length_set]
        exact hlen
      · intro c' hc'; exact hall c' (List.mem_cons_of_mem _ hc')
    · have hceq : (i, j, k) = c := by
        rcases List.mem_cons.1 hmem with h | h
        · exact h
        · exact absurd h hmem'
      subst hceq
      have hwrite : (jacobiStep s (i, j, k)).2.1.potAt i j k
          = cur.nextValueJacobi i j k := by
        show (s.2.1.setPot i j k (s.1.nextValueJacobi i j k)).potAt i j k = _
        rw [potAt_setPot_self s.2.1 _ hlen, hcur]
      have hbounds := hall (i, j, k) (List.mem_cons_self _ _)
      rw [foldl_potAt_of_ne jacobiStep (fun s => s.2.1)
        (fun s c => ⟨_, rfl⟩) cs (jacobiStep s (i, j, k)) i j k ?_]
      · exact hwrite
      · intro c' hc' heq
        have hx' : (jacobiStep s (i, j, k)).2.1.m_xRange = cur.m_xRange := hx
        have hy' : (jacobiStep s (i, j, k)).2.1.m_yRange = cur.m_yRange := hy
        obtain ⟨b1, b2⟩ := hall c' (List.mem_cons_of_mem _ hc')
        obtain ⟨e1, e2, e3⟩ := potFlatIndex_inj (jacobiStep s (i, j, k)).2.1
          (by rw [hx']; exact b1) (by rw [hy']; exact b2)
          (by rw [hx']; exact hbounds.1) (by rw [hy']; exact hbounds.2) heq
        obtain ⟨a, b, c2⟩ := c'
        simp only at e1 e2 e3
        subst e1; subst e2; subst e3
        exact hmem' hc'

lemma jacobiUpdate_potAt_interior (cur upd : PoissonLattice) {i j k : Nat}
    (h1 : 1 ≤ i) (h2 : i + 1 < cur.m_xRange) (h3 : 1 ≤ j)
    (h4 : j + 1 < cur.m_yRange) (h5 : 1 ≤ k) (h6 : k + 1 < cur.m_zRange)
    (hx : upd.m_xRange = cur.m_xRange) (hy : upd.m_yRange = cur.m_yRange)
    (hz : upd.m_zRange = cur.m_zRange)
    (hlen : upd.m_potential.length
      = upd.m_xRange * upd.m_yRange * upd.m_zRange) :
    (jacobiUpdate cur upd).2.1.potAt i j k = cur.nextValueJacobi i j k := by
  unfold jacobiUpdate
  refine foldl_jacobiStep_potAt_written cur _ (cur, upd, 0) i j k rfl hx hy
    ?_ ?_ ?_
  · show potFlatIndex upd i j k < upd.m_potential.length
    rw [hlen]
    exact potFlatIndex_lt upd (by omega) (by omega) (by omega)
  · exact (mem_interiorCoords cur).2 ⟨h1, h2, h3, h4, h5, h6⟩
  · intro c hc
    obtain ⟨a1, a2, a3, a4, a5, a6⟩ := (mem_interiorCoords cur).1 hc
    exact ⟨by omega, by omega⟩

/-! ### Convergence-measure lemmas -/

lemma foldl_gaussSeidelStep_measure_le (cs : List (Nat × Nat × Nat)) :
    ∀ s : PoissonLattice × Rat, s.2 ≤ (cs.foldl gaussSeidelStep s).2 := by
  induction cs with
  | nil => intro s; exact le_refl _
  | cons c cs ih =>
    intro s
    refine le_trans ?_ (ih (gaussSeidelStep s c))
    exact le_add_of_nonneg_right (abs_nonneg _)

lemma foldl_sorStep_measure_le (w : Rat) (cs : List (Nat × Nat × Nat)) :
    ∀ s : PoissonLattice × Rat, s.2 ≤ (cs.foldl (sorStep w) s).2 := by
  induction cs with
  | nil => intro s; exact le_refl _
  | cons c cs ih =>
    intro s
    refine le_trans ?_ (ih (sorStep w s c))
    exact le_add_of_nonneg_right (abs_nonneg _)

lemma foldl_jacobiStep_measure (cur : PoissonLattice)
    (cs : List (Nat × Nat × Nat)) :
    ∀ s : PoissonLattice × PoissonLattice × Rat, s.1 = cur →
      (cs.foldl jacobiStep s).2.2 = s.2.2 + (cs.map (fun c =>
        |cur.nextValueJacobi c.1 c.2.1 c.2.2
          - cur.potAt c.1 c.2.1 c.2.2|)).sum := by
  induction cs with
  | nil => intro s _; simp
  | cons c cs ih =>
    intro s hcur
    rw [List.foldl_cons, ih (jacobiStep s c)
      (by rw [show (jacobiStep s c).1 = s.1 from rfl, hcur])]
    have hstep : (jacobiStep s c).2.2 = s.2.2
        + |cur.nextValueJacobi c.1 c.2.1 c.2.2
            - cur.potAt c.1 c.2.1 c.2.2| := by
      rw [← hcur]; rfl
    rw [hstep, List.map_cons, List.sum_cons]
    ring

lemma jacobiUpdate_measure (cur upd : PoissonLattice) :
    (jacobiUpdate cur upd).2.2 = ((interiorCoords cur).map (fun c =>
      |cur.nextValueJacobi c.1 c.2.1 c.2.2
        - cur.potAt c.1 c.2.1 c.2.2|)).sum := by
  unfold jacobiUpdate
  rw [foldl_jacobiStep_measure cur _ (cur, upd, 0) rfl]
  simp

lemma jacobiUpdate_measure_nonneg (cur upd : PoissonLattice) :
    0 ≤ (jacobiUpdate cur upd).2.2 := by
  rw [jacobiUpdate_measure]
  refine List.sum_nonneg ?_
  intro a ha
  obtain ⟨c, _, rfl⟩ := List.mem_map.1 ha
  exact abs_nonneg _

/-! ### SOR with omega = 1 is Gauss-Seidel -/

lemma sorStep_one : sorStep 1 = gaussSeidelStep := by
  funext s c
  simp only [sorStep, gaussSeidelStep]
  have h : (1 - (1 : Rat)) * s.1.potAt c.1 c.2.1 c.2.2
      + 1 * s.1.nextValueJacobi c.1 c.2.1 c.2.2
      = s.1.nextValueJacobi c.1 c.2.1 c.2.2 := by ring
  rw [h]

lemma sorUpdate_one (L : PoissonLattice) :
    sorUpdate 1 L = gaussSeidelUpdate L := by
  unfold sorUpdate gaussSeidelUpdate
  rw [sorStep_one]

lemma sorLoopStep_one : sorLoopStep 1 = gaussSeidelLoopStep := by
  funext L
  show sorUpdate 1 L = gaussSeidelUpdate L
  exact sorUpdate_one L

/-! ### The driving loop -/

lemma stateIter_succ_shift {σ : Type} (step : σ → σ × Rat) (n : Nat) (s : σ) :
    stateIter step (n + 1) s = stateIter step n (step s).1 := rfl

lemma measureSeq_succ_shift {σ : Type} (step : σ → σ × Rat) (n : Nat) (s : σ) :
    measureSeq step s (n + 1) = measureSeq step (step s).1 n := rfl

lemma runLoop_eq_some {σ : Type} (step : σ → σ × Rat) (prec : Rat) :
    ∀ (fuel : Nat) (s : σ) (counter : Nat) (s' : σ) (n : Nat),
      runLoop step prec fuel s counter = some (s', n) →
      counter < n ∧ n ≤ counter + fuel ∧
      s' = stateIter step (n - counter) s ∧
      measureSeq step s (n - counter - 1) < prec ∧
      ∀ m, m < n - counter - 1 → prec ≤ measureSeq step s m := by
  intro fuel
  induction fuel with
  | zero =>
    intro s counter s' n h
    exact absurd h (by simp [runLoop])
  | succ fuel ih =>
    intro s counter s' n h
    simp only [runLoop] at h
    by_cases hm : (step s).2 < prec
    · rw [if_pos hm] at h
      simp only [Option.some.injEq, Prod.mk.injEq] at h
      obtain ⟨h1, h2⟩ := h
      subst h1; subst h2
      refine ⟨by omega, by omega, ?_, ?_, ?_⟩
      · show (step s).1 = stateIter step (counter + 1 - counter) s
        have : counter + 1 - counter = 1 := by omega
        rw [this]
        rfl
      · have : counter + 1 - counter - 1 = 0 := by omega
        rw [this]
        exact hm
      · intro m hmlt
        omega
    · rw [if_neg hm] at h
      obtain ⟨c1, c2, c3, c4, c5⟩ := ih (step s).1 (counter + 1) s' n h
      have hd : 1 ≤ n - counter := by omega
      refine ⟨by omega, by omega, ?_, ?_, ?_⟩
      · have e : n - counter = (n - (counter + 1)) + 1 := by omega
        rw [e, stateIter_succ_shift]
        exact c3
      · have e : n - counter - 1 = (n - (counter + 1) - 1) + 1 ∨
            n - counter - 1 = 0 ∧ n - (counter + 1) = 0 := by omega
        rcases e with e | ⟨e, e'⟩
        · rw [e, measureSeq_succ_shift]
          have e2 : n - (counter + 1) - 1 = n - (counter + 1) - 1 := rfl
          exact c4
        · omega
      · intro m hmlt
        match m with
        | 0 => exact le_of_not_lt hm
        | Nat.succ m' =>
          rw [measureSeq_succ_shift]
          exact c5 m' (by omega)

lemma runLoop_eq_none {σ : Type} (step : σ → σ × Rat) (prec : Rat) :
    ∀ (fuel : Nat) (s : σ) (counter : Nat),
      (∀ m, m < fuel → prec ≤ measureSeq step s m) →
      runLoop step prec fuel s counter = none := by
  intro fuel
  induction fuel with
  | zero => intro s counter _; rfl
  | succ fuel ih =>
    intro s counter hall
    simp only [runLoop]
    rw [if_neg (not_lt.2 (show prec ≤ (step s).2 from hall 0 (by omega)))]
    refine ih (step s).1 (counter + 1) ?_
    intro m hm
    rw [← measureSeq_succ_shift]
    exact hall (m + 1) (by omega)

/-! ### Boundary cells across iterated sweeps -/

lemma stateIter_gaussSeidel_boundary (ib jb kb : Nat) :
    ∀ (n : Nat) (L : PoissonLattice),
      ib < L.m_xRange → jb < L.m_yRange →
      (ib = 0 ∨ ib + 1 = L.m_xRange ∨ jb = 0 ∨ jb + 1 = L.m_yRange ∨
        kb = 0 ∨ kb + 1 = L.m_zRange) →
      (stateIter gaussSeidelLoopStep n L).potAt ib jb kb
        = L.potAt ib jb kb := by
  intro n
  induction n with
  | zero => intro L _ _ _; rfl
  | succ n ih =>
    intro L hib hjb hface
    have hf := gaussSeidelUpdate_frame L
    show (stateIter gaussSeidelLoopStep n
      (gaussSeidelLoopStep L).1).potAt ib jb kb = _
    have hstep : (gaussSeidelLoopStep L).1 = (gaussSeidelUpdate L).1 := rfl
    rw [hstep, ih (gaussSeidelUpdate L).1 (by rw [hf.1]; exact hib)
      (by rw [hf.2.1]; exact hjb)
      (by rw [hf.1, hf.2.1, hf.2.2.1]; exact hface)]
    exact gaussSeidelUpdate_potAt_boundary L hib hjb hface

lemma stateIter_sor_boundary (w : Rat) (ib jb kb : Nat) :
    ∀ (n : Nat) (L : PoissonLattice),
      ib < L.m_xRange → jb < L.m_yRange →
      (ib = 0 ∨ ib + 1 = L.m_xRange ∨ jb = 0 ∨ jb + 1 = L.m_yRange ∨
        kb = 0 ∨ kb + 1 = L.m_zRange) →
      (stateIter (sorLoopStep w) n L).potAt ib jb kb = L.potAt ib jb kb := by
  intro n
  induction n with
  | zero => intro L _ _ _; rfl
  | succ n ih =>
    intro L hib hjb hface
    have hf := sorUpdate_frame w L
    show (stateIter (sorLoopStep w) n (sorLoopStep w L).1).potAt ib jb kb = _
    have hstep : (sorLoopStep w L).1 = (sorUpdate w L).1 := rfl
    rw [hstep, ih (sorUpdate w L).1 (by rw [hf.1]; exact hib)
      (by rw [hf.2.1]; exact hjb)
      (by rw [hf.1, hf.2.1, hf.2.2.1]; exact hface)]
    exact sorUpdate_potAt_boundary w L hib hjb hface

lemma stateIter_jacobi_boundary (ib jb kb : Nat) (v : Rat) :
    ∀ (n : Nat) (cur upd : PoissonLattice),
      upd.m_xRange = cur.m_xRange → upd.m_yRange = cur.m_yRange →
      upd.m_zRange = cur.m_zRange →
      ib < cur.m_xRange → jb < cur.m_yRange →
      (ib = 0 ∨ ib + 1 = cur.m_xRange ∨ jb = 0 ∨ jb + 1 = cur.m_yRange ∨
        kb = 0 ∨ kb + 1 = cur.m_zRange) →
      cur.potAt ib jb kb = v → upd.potAt ib jb kb = v →
      (stateIter jacobiLoopStep n (cur, upd)).1.potAt ib jb kb = v ∧
      (stateIter jacobiLoopStep n (cur, upd)).2.potAt ib jb kb = v := by
  intro n
  induction n with
  | zero => intro cur upd _ _ _ _ _ _ hv1 hv2; exact ⟨hv1, hv2⟩
  | succ n ih =>
    intro cur upd hx hy hz hib hjb hface hv1 hv2
    have hfr := jacobiUpdate_snd_frame cur upd
    have hfst := jacobiUpdate_fst cur upd
    have hbnd : (jacobiUpdate cur upd).2.1.potAt ib jb kb = v := by
      rw [jacobiUpdate_potAt_boundary cur upd (by rw [hx]; exact hib)
        (by rw [hy]; exact hjb) hx hy hz
        (by rw [hx, hy, hz]; exact hface)]
      exact hv2
    show (stateIter jacobiLoopStep n
      ((jacobiUpdate cur upd).2.1,
        (jacobiUpdate cur upd).1)).1.potAt ib jb kb = v ∧
      (stateIter jacobiLoopStep n
      ((jacobiUpdate cur upd).2.1,
        (jacobiUpdate cur upd).1)).2.potAt ib jb kb = v
    rw [hfst]
    refine ih (jacobiUpdate cur upd).2.1 cur
      (by rw [hfr.1, hx]) (by rw [hfr.2.1, hy]) (by rw [hfr.2.2.1, hz])
      (by rw [hfr.1, hx]; exact hib) (by rw [hfr.2.1, hy]; exact hjb)
      (by rw [hfr.1, hfr.2.1, hfr.2.2.1, hx, hy, hz]; exact hface)
      hbnd hv1

/-! ### Frame conditions across iterated sweeps -/

lemma stateIter_gaussSeidel_frame :
    ∀ (n : Nat) (L : PoissonLattice),
      (stateIter gaussSeidelLoopStep n L).m_xRange = L.m_xRange ∧
      (stateIter gaussSeidelLoopStep n L).m_yRange = L.m_yRange ∧
      (stateIter gaussSeidelLoopStep n L).m_zRange = L.m_zRange ∧
      (stateIter gaussSeidelLoopStep n L).m_permativity = L.m_permativity ∧
      (stateIter gaussSeidelLoopStep n L).m_dx = L.m_dx ∧
      (stateIter gaussSeidelLoopStep n L).m_chargeDensity
        = L.m_chargeDensity := by
  intro n
  induction n with
  | zero => intro L; exact ⟨rfl, rfl, rfl, rfl, rfl, rfl⟩
  | succ n ih =>
    intro L
    have hf := gaussSeidelUpdate_frame L
    have h := ih (gaussSeidelLoopStep L).1
    have hstep : (gaussSeidelLoopStep L).1 = (gaussSeidelUpdate L).1 := rfl
    rw [hstep] at h
    exact ⟨h.1.trans hf.1, h.2.1.trans hf.2.1, h.2.2.1.trans hf.2.2.1,
      h.2.2.2.1.trans hf.2.2.2.1, h.2.2.2.2.1.trans hf.2.2.2.2.1,
      h.2.2.2.2.2.trans hf.2.2.2.2.2.1⟩

lemma stateIter_sor_frame (w : Rat) :
    ∀ (n : Nat) (L : PoissonLattice),
      (stateIter (sorLoopStep w) n L).m_xRange = L.m_xRange ∧
      (stateIter (sorLoopStep w) n L).m_yRange = L.m_yRange ∧
      (stateIter (sorLoopStep w) n L).m_zRange = L.m_zRange ∧
      (stateIter (sorLoopStep w) n L).m_permativity = L.m_permativity ∧
      (stateIter (sorLoopStep w) n L).m_dx = L.m_dx ∧
      (stateIter (sorLoopStep w) n L).m_chargeDensity = L.m_chargeDensity := by
  intro n
  induction n with
  | zero => intro L; exact ⟨rfl, rfl, rfl, rfl, rfl, rfl⟩
  | succ n ih =>
    intro L
    have hf := sorUpdate_frame w L
    have h := ih (sorLoopStep w L).1
    have hstep : (sorLoopStep w L).1 = (sorUpdate w L).1 := rfl
    rw [hstep] at h
    exact ⟨h.1.trans hf.1, h.2.1.trans hf.2.1, h.2.2.1.trans hf.2.2.1,
      h.2.2.2.1.trans hf.2.2.2.1, h.2.2.2.2.1.trans hf.2.2.2.2.1,
      h.2.2.2.2.2.trans hf.2.2.2.2.2.1⟩

lemma stateIter_jacobi_chargeDensity :
    ∀ (n : Nat) (cur upd : PoissonLattice),
      upd.m_chargeDensity = cur.m_chargeDensity →
      (stateIter jacobiLoopStep n (cur, upd)).1.m_chargeDensity
        = cur.m_chargeDensity ∧
      (stateIter jacobiLoopStep n (cur, upd)).2.m_chargeDensity
        = cur.m_chargeDensity := by
  intro n
  induction n with
  | zero => intro cur upd h; exact ⟨rfl, h⟩
  | succ n ih =>
    intro cur upd h
    have hfr := jacobiUpdate_snd_frame cur upd
    have hfst := jacobiUpdate_fst cur upd
    have hch : (jacobiUpdate cur upd).2.1.m_chargeDensity
        = cur.m_chargeDensity := by rw [hfr.2.2.2.2.2.1, h]
    show (stateIter jacobiLoopStep n
      ((jacobiUpdate cur upd).2.1,
        (jacobiUpdate cur upd).1)).1.m_chargeDensity = cur.m_chargeDensity ∧
      (stateIter jacobiLoopStep n
      ((jacobiUpdate cur upd).2.1,
        (jacobiUpdate cur upd).1)).2.m_chargeDensity = cur.m_chargeDensity
    rw [hfst]
    have hih := ih (jacobiUpdate cur upd).2.1 cur hch.symm
    exact ⟨hih.1.trans hch, hih.2.trans hch⟩

/-! ### The draw consumed by `initialise` at each interior cell

`initialise` advances the generator once per visited cell, so the value
written at `(i,j,k)` is `initialValue + g r` where `r` is the cell's rank in
the `k`-outermost traversal.  The next lemmas compute that rank, one loop
level at a time. -/

lemma foldl_initStep_counter (v0 : Rat) (g : Nat → Rat)
    (cs : List (Nat × Nat × Nat)) :
    ∀ s : PoissonLattice × Nat,
      (cs.foldl (initStep v0 g) s).2 = s.2 + cs.length := by
  induction cs with
  | nil => intro s; simp
  | cons c cs ih =>
    intro s
    rw [List.foldl_cons, ih]
    show s.2 + 1 + cs.length = s.2 + (c :: cs).length
    rw [List.length_cons]
    omega

lemma initBlock_length (X k : Nat) :
    ∀ (lenj bj : Nat),
      ((List.range' bj lenj).flatMap (fun j0 =>
        (List.range' 1 (X - 2)).map (fun i0 => (i0, j0, k)))).length
        = lenj * (X - 2) := by
  intro lenj
  induction lenj with
  | zero => intro bj; simp
  | succ lenj ih =>
    intro bj
    rw [List.range'_succ, List.flatMap_cons, List.length_append, ih (bj + 1),
      List.length_map, List.length_range']
    ring

lemma initRow_value (v0 : Rat) (g : Nat → Rat) (X Y Z j k : Nat)
    (hj : j < Y) (hk : k < Z) :
    ∀ (len a : Nat) (s : PoissonLattice × Nat) (i : Nat),
      s.1.m_xRange = X → s.1.m_yRange = Y → s.1.m_zRange = Z →
      s.1.m_potential.length = X * Y * Z →
      a ≤ i → i < a + len → a + len ≤ X →
      (((List.range' a len).map (fun i0 => (i0, j, k))).foldl
        (initStep v0 g) s).1.potAt i j k = v0 + g (s.2 + (i - a)) := by
  intro len
  induction len with
  | zero => intro a s i _ _ _ _ hai hia _; omega
  | succ len ih =>
    intro a s i hx hy hz hlen hai hia hax
    rw [List.range'_succ, List.map_cons, List.foldl_cons]
    by_cases hi : i = a
    · subst hi
      have hplt : potFlatIndex s.1 i j k < s.1.m_potential.length := by
        have hb : potFlatIndex s.1 i j k
            < s.1.m_xRange * s.1.m_yRange * s.1.m_zRange :=
          potFlatIndex_lt s.1 (by rw [hx]; omega) (by rw [hy]; exact hj)
            (by rw [hz]; exact hk)
        rw [hlen, ← hx, ← hy, ← hz]
        exact hb
      have hwrite : ((initStep v0 g) s (i, j, k)).1.potAt i j k
          = v0 + g s.2 := potAt_setPot_self s.1 _ hplt
      have hne : ∀ c ∈ (List.range' (i + 1) len).map
          (fun i0 => (i0, j, k)),
          potFlatIndex ((initStep v0 g) s (i, j, k)).1 c.1 c.2.1 c.2.2
            ≠ potFlatIndex ((initStep v0 g) s (i, j, k)).1 i j k := by
        intro c hc heq
        obtain ⟨i0, hi0, rfl⟩ := List.mem_map.1 hc
        rw [List.mem_range'_1] at hi0
        have hxs : ((initStep v0 g) s (i, j, k)).1.m_xRange = X := hx
        have hys : ((initStep v0 g) s (i, j, k)).1.m_yRange = Y := hy
        obtain ⟨e1, _, _⟩ := potFlatIndex_inj ((initStep v0 g) s (i, j, k)).1
          (show i0 < ((initStep v0 g) s (i, j, k)).1.m_xRange by
            rw [hxs]; omega)
          (show j < ((initStep v0 g) s (i, j, k)).1.m_yRange by
            rw [hys]; exact hj)
          (show i < ((initStep v0 g) s (i, j, k)).1.m_xRange by
            rw [hxs]; omega)
          (show j < ((initStep v0 g) s (i, j, k)).1.m_yRange by
            rw [hys]; exact hj) heq
        omega
      rw [foldl_potAt_of_ne (initStep v0 g) Prod.fst (fun _ _ => ⟨_, rfl⟩)
        _ _ i j k hne, hwrite, Nat.sub_self, Nat.add_zero]
    · have hlen1 : ((initStep v0 g) s (a, j, k)).1.m_potential.length
          = X * Y * Z := by
        show (s.1.m_potential.set (potFlatIndex s.1 a j k)
          (v0 + g s.2)).length = X * Y * Z
        rw [List.length_set]
        exact hlen
      have hres := ih (a + 1) ((initStep v0 g) s (a, j, k)) i hx hy hz hlen1
        (by omega) (by omega) (by omega)
      rw [hres]
      have harg : ((initStep v0 g) s (a, j, k)).2 + (i - (a + 1))
          = s.2 + (i - a) := by
        show s.2 + 1 + (i - (a + 1)) = s.2 + (i - a)
        omega
      rw [harg]

lemma initBlock_value (v0 : Rat) (g : Nat → Rat) (X Y Z k : Nat) (hk : k < Z) :
    ∀ (lenj bj : Nat) (s : PoissonLattice × Nat) (i j : Nat),
      s.1.m_xRange = X → s.1.m_yRange = Y → s.1.m_zRange = Z →
      s.1.m_potential.length = X * Y * Z →
      bj ≤ j → j < bj + lenj → bj + lenj ≤ Y →
      1 ≤ i → i + 1 < X →
      (((List.range' bj lenj).flatMap (fun j0 =>
        (List.range' 1 (X - 2)).map (fun i0 => (i0, j0, k)))).foldl
        (initStep v0 g) s).1.potAt i j k
        = v0 + g (s.2 + (j - bj) * (X - 2) + (i - 1)) := by
  intro lenj
  induction lenj with
  | zero => intro bj s i j _ _ _ _ hbj hjb _ _ _; omega
  | succ lenj ih =>
    intro bj s i j hx hy hz hlen hbj hjb hby h1i h2i
    rw [List.range'_succ, List.flatMap_cons, List.foldl_append]
    have hfr1 := foldl_frame (initStep v0 g) Prod.fst (fun _ _ => ⟨_, rfl⟩)
      ((List.range' 1 (X - 2)).map (fun i0 => (i0, bj, k))) s
    by_cases hj : j = bj
    · subst hj
      have hrow := initRow_value v0 g X Y Z j k (by omega) hk (X - 2) 1 s i
        hx hy hz hlen h1i (by omega) (by omega)
      have hne : ∀ c ∈ (List.range' (j + 1) lenj).flatMap (fun j0 =>
          (List.range' 1 (X - 2)).map (fun i0 => (i0, j0, k))),
          potFlatIndex (((List.range' 1 (X - 2)).map
            (fun i0 => (i0, j, k))).foldl (initStep v0 g) s).1 c.1 c.2.1 c.2.2
          ≠ potFlatIndex (((List.range' 1 (X - 2)).map
            (fun i0 => (i0, j, k))).foldl (initStep v0 g) s).1 i j k := by
        intro c hc heq
        obtain ⟨j0, hj0, hcm⟩ := List.mem_flatMap.1 hc
        obtain ⟨i0, hi0, rfl⟩ := List.mem_map.1 hcm
        rw [List.mem_range'_1] at hj0 hi0
        obtain ⟨_, e2, _⟩ := potFlatIndex_inj (((List.range' 1 (X - 2)).map
            (fun i0 => (i0, j, k))).foldl (initStep v0 g) s).1
          (show i0 < (((List.range' 1 (X - 2)).map
            (fun i0 => (i0, j, k))).foldl (initStep v0 g) s).1.m_xRange by
            rw [hfr1.1, hx]; omega)
          (show j0 < (((List.range' 1 (X - 2)).map
            (fun i0 => (i0, j, k))).foldl (initStep v0 g) s).1.m_yRange by
            rw [hfr1.2.1, hy]; omega)
          (show i < (((List.range' 1 (X - 2)).map
            (fun i0 => (i0, j, k))).foldl (initStep v0 g) s).1.m_xRange by
            rw [hfr1.1, hx]; omega)
          (show j < (((List.range' 1 (X - 2)).map
            (fun i0 => (i0, j, k))).foldl (initStep v0 g) s).1.m_yRange by
            rw [hfr1.2.1, hy]; omega) heq
        omega
      rw [foldl_potAt_of_ne (initStep v0 g) Prod.fst (fun _ _ => ⟨_, rfl⟩)
        _ _ i j k hne]
      rw [hrow, Nat.sub_self, Nat.zero_mul, Nat.add_zero]
    · have hcnt : (((List.range' 1 (X - 2)).map
          (fun i0 => (i0, bj, k))).foldl (initStep v0 g) s).2
          = s.2 + (X - 2) := by
        rw [foldl_initStep_counter, List.length_map, List.length_range']
      have hres := ih (bj + 1)
        (((List.range' 1 (X - 2)).map (fun i0 => (i0, bj, k))).foldl
          (initStep v0 g) s) i j
        (by rw [hfr1.1]; exact hx) (by rw [hfr1.2.1]; exact hy)
        (by rw [hfr1.2.2.1]; exact hz)
        (by rw [hfr1.2.2.2.2.2.2]; exact hlen)
        (by omega) (by omega) (by omega) h1i h2i
      rw [hres]
      have he : j - bj = (j - (bj + 1)) + 1 := by omega
      have harg : (((List.range' 1 (X - 2)).map
          (fun i0 => (i0, bj, k))).foldl (initStep v0 g) s).2
          + (j - (bj + 1)) * (X - 2) + (i - 1)
          = s.2 + (j - bj) * (X - 2) + (i - 1) := by
        rw [hcnt, he]
        ring
      rw [harg]

lemma initVolume_value (v0 : Rat) (g : Nat → Rat) (X Y Z : Nat) :
    ∀ (lenk bk : Nat) (s : PoissonLattice × Nat) (i j k : Nat),
      s.1.m_xRange = X → s.1.m_yRange = Y → s.1.m_zRange = Z →
      s.1.m_potential.length = X * Y * Z →
      bk ≤ k → k < bk + lenk → bk + lenk ≤ Z →
      1 ≤ i → i + 1 < X → 1 ≤ j → j + 1 < Y →
      (((List.range' bk lenk).flatMap (fun k0 =>
        (List.range' 1 (Y - 2)).flatMap (fun j0 =>
          (List.range' 1 (X - 2)).map (fun i0 => (i0, j0, k0))))).foldl
        (initStep v0 g) s).1.potAt i j k
        = v0 + g (s.2 + (k - bk) * ((Y - 2) * (X - 2))
            + (j - 1) * (X - 2) + (i - 1)) := by
  intro lenk
  induction lenk with
  | zero => intro bk s i j k _ _ _ _ hbk hkb _ _ _ _ _; omega
  | succ lenk ih =>
    intro bk s i j k hx hy hz hlen hbk hkb hbz h1i h2i h1j h2j
    rw [List.range'_succ, List.flatMap_cons, List.foldl_append]
    have hfr1 := foldl_frame (initStep v0 g) Prod.fst (fun _ _ => ⟨_, rfl⟩)
      ((List.range' 1 (Y - 2)).flatMap (fun j0 =>
        (List.range' 1 (X - 2)).map (fun i0 => (i0, j0, bk)))) s
    by_cases hkc : k = bk
    · subst hkc
      have hblk := initBlock_value v0 g X Y Z k (by omega) (Y - 2) 1 s i j
        hx hy hz hlen h1j (by omega) (by omega) h1i h2i
      have hne : ∀ c ∈ (List.range' (k + 1) lenk).flatMap (fun k0 =>
          (List.range' 1 (Y - 2)).flatMap (fun j0 =>
            (List.range' 1 (X - 2)).map (fun i0 => (i0, j0, k0)))),
          potFlatIndex (((List.range' 1 (Y - 2)).flatMap (fun j0 =>
            (List.range' 1 (X - 2)).map (fun i0 => (i0, j0, k)))).foldl
            (initStep v0 g) s).1 c.1 c.2.1 c.2.2
          ≠ potFlatIndex (((List.range' 1 (Y - 2)).flatMap (fun j0 =>
            (List.range' 1 (X - 2)).map (fun i0 => (i0, j0, k)))).foldl
            (initStep v0 g) s).1 i j k := by
        intro c hc heq
        obtain ⟨k0, hk0, hcm⟩ := List.mem_flatMap.1 hc
        obtain ⟨j0, hj0, hcm2⟩ := List.mem_flatMap.1 hcm
        obtain ⟨i0, hi0, rfl⟩ := List.mem_map.1 hcm2
        rw [List.mem_range'_1] at hk0 hj0 hi0
        obtain ⟨_, _, e3⟩ := potFlatIndex_inj (((List.range' 1 (Y - 2)).flatMap
            (fun j0 => (List.range' 1 (X - 2)).map
              (fun i0 => (i0, j0, k)))).foldl (initStep v0 g) s).1
          (show i0 < (((List.range' 1 (Y - 2)).flatMap (fun j0 =>
            (List.range' 1 (X - 2)).map (fun i0 => (i0, j0, k)))).foldl
            (initStep v0 g) s).1.m_xRange by rw [hfr1.1, hx]; omega)
          (show j0 < (((List.range' 1 (Y - 2)).flatMap (fun j0 =>
            (List.range' 1 (X - 2)).map (fun i0 => (i0, j0, k)))).foldl
            (initStep v0 g) s).1.m_yRange by rw [hfr1.2.1, hy]; omega)
          (show i < (((List.range' 1 (Y - 2)).flatMap (fun j0 =>
            (List.range' 1 (X - 2)).map (fun i0 => (i0, j0, k)))).foldl
            (initStep v0 g) s).1.m_xRange by rw [hfr1.1, hx]; omega)
          (show j < (((List.range' 1 (Y - 2)).flatMap (fun j0 =>
            (List.range' 1 (X - 2)).map (fun i0 => (i0, j0, k)))).foldl
            (initStep v0 g) s).1.m_yRange by rw [hfr1.2.1, hy]; omega) heq
        have e3' : k0 = k := e3
        omega
      rw [foldl_potAt_of_ne (initStep v0 g) Prod.fst (fun _ _ => ⟨_, rfl⟩)
        _ _ i j k hne]
      rw [hblk, Nat.sub_self, Nat.zero_mul, Nat.add_zero]
    · have hcnt : (((List.range' 1 (Y - 2)).flatMap (fun j0 =>
          (List.range' 1 (X - 2)).map (fun i0 => (i0, j0, bk)))).foldl
          (initStep v0 g) s).2 = s.2 + (Y - 2) * (X - 2) := by
        rw [foldl_initStep_counter, initBlock_length]
      have hres := ih (bk + 1)
        (((List.range' 1 (Y - 2)).flatMap (fun j0 =>
          (List.range' 1 (X - 2)).map (fun i0 => (i0, j0, bk)))).foldl
          (initStep v0 g) s) i j k
        (by rw [hfr1.1]; exact hx) (by rw [hfr1.2.1]; exact hy)
        (by rw [hfr1.2.2.1]; exact hz)
        (by rw [hfr1.2.2.2.2.2.2]; exact hlen)
        (by omega) (by omega) (by omega) h1i h2i h1j h2j
      rw [hres]
      have he : k - bk = (k - (bk + 1)) + 1 := by omega
      have harg : (((List.range' 1 (Y - 2)).flatMap (fun j0 =>
          (List.range' 1 (X - 2)).map (fun i0 => (i0, j0, bk)))).foldl
          (initStep v0 g) s).2
          + (k - (bk + 1)) * ((Y - 2) * (X - 2)) + (j - 1) * (X - 2) + (i - 1)
          = s.2 + (k - bk) * ((Y - 2) * (X - 2))
            + (j - 1) * (X - 2) + (i - 1) := by
        rw [hcnt, he]
        ring
      rw [harg]

lemma initialise_potAt_interior (L : PoissonLattice) (v0 : Rat)
    (g : Nat → Rat) {i j k : Nat}
    (h1 : 1 ≤ i) (h2 : i + 1 < L.m_xRange) (h3 : 1 ≤ j)
    (h4 : j + 1 < L.m_yRange) (h5 : 1 ≤ k) (h6 : k + 1 < L.m_zRange)
    (hlen : L.m_potential.length
      = L.m_xRange * L.m_yRange * L.m_zRange) :
    (L.initialise v0 g).potAt i j k = v0 + g (drawIndex L i j k) := by
  unfold PoissonLattice.initialise initCoords
  have h := initVolume_value v0 g L.m_xRange L.m_yRange L.m_zRange
    (L.m_zRange - 2) 1 (L, 0) i j k rfl rfl rfl hlen h5 (by omega) (by omega)
    h1 h2 h3 h4
  rw [h]
  have harg : ((L, 0) : PoissonLattice × Nat).2
      + (k - 1) * ((L.m_yRange - 2) * (L.m_xRange - 2))
      + (j - 1) * (L.m_xRange - 2) + (i - 1) = drawIndex L i j k := by
    show 0 + (k - 1) * ((L.m_yRange - 2) * (L.m_xRange - 2))
      + (j - 1) * (L.m_xRange - 2) + (i - 1) = drawIndex L i j k
    unfold drawIndex
    ring
  rw [harg]

/-- Distinct interior cells consume distinct draws: `drawIndex` is injective
on the interior. -/
lemma drawIndex_inj (L : PoissonLattice) {i j k i' j' k' : Nat}
    (h1 : 1 ≤ i) (h2 : i + 1 < L.m_xRange) (h3 : 1 ≤ j)
    (h4 : j + 1 < L.m_yRange) (h5 : 1 ≤ k)
    (h1' : 1 ≤ i') (h2' : i' + 1 < L.m_xRange) (h3' : 1 ≤ j')
    (h4' : j' + 1 < L.m_yRange) (h5' : 1 ≤ k')
    (h : drawIndex L i' j' k' = drawIndex L i j k) :
    i' = i ∧ j' = j ∧ k' = k := by
  unfold drawIndex at h
  have h2'' : (i' - 1) + (L.m_xRange - 2)
      * ((j' - 1) + (L.m_yRange - 2) * (k' - 1))
      = (i - 1) + (L.m_xRange - 2)
      * ((j - 1) + (L.m_yRange - 2) * (k - 1)) := by
    have e1 : (i' - 1) + (j' - 1) * (L.m_xRange - 2)
        + (k' - 1) * ((L.m_xRange - 2) * (L.m_yRange - 2))
        = (i' - 1) + (L.m_xRange - 2)
          * ((j' - 1) + (L.m_yRange - 2) * (k' - 1)) := by ring
    have e2 : (i - 1) + (j - 1) * (L.m_xRange - 2)
        + (k - 1) * ((L.m_xRange - 2) * (L.m_yRange - 2))
        = (i - 1) + (L.m_xRange - 2)
          * ((j - 1) + (L.m_yRange - 2) * (k - 1)) := by ring
    rw [← e1, ← e2]
    exact h
  obtain ⟨e1, erest⟩ := addMul_inj
    (show i' - 1 < L.m_xRange - 2 by omega)
    (show i - 1 < L.m_xRange - 2 by omega) h2''
  obtain ⟨e2, e3⟩ := addMul_inj
    (show j' - 1 < L.m_yRange - 2 by omega)
    (show j - 1 < L.m_yRange - 2 by omega) erest
  exact ⟨by omega, by omega, by omega⟩

/-! ### Concrete lattices used to witness the hypothesised theorems -/

/-- A 3x3x3 all-zero lattice (a single interior cell). -/
def sampleLat3 : PoissonLattice :=
  { m_xRange := 3, m_yRange := 3, m_zRange := 3, m_permativity := 1,
    m_dx := 1, m_chargeDensity := List.replicate 27 0,
    m_potential := List.replicate 27 0 }

/-- A 2x3x4 all-zero lattice (no interior; exercises pure indexing). -/
def sampleLat234 : PoissonLattice :=
  { m_xRange := 2, m_yRange := 3, m_zRange := 4, m_permativity := 1,
    m_dx := 1, m_chargeDensity := List.replicate 24 0,
    m_potential := List.replicate 24 0 }

/-- A 4x4x4 all-zero lattice (a 2x2x2 interior). -/
def sampleLat4 : PoissonLattice :=
  { m_xRange := 4, m_yRange := 4, m_zRange := 4, m_permativity := 1,
    m_dx := 1, m_chargeDensity := List.replicate 64 0,
    m_potential := List.replicate 64 0 }

/-! ### The claims -/

/-- C1: at every interior cell, `nextValueJacobi` is the 6-point stencil
average plus the source term `dx^2/permittivity * rho`, all divided by 6; one
`jacobiUpdate` sweep writes exactly that value (evaluated on the source
lattice) into every interior destination cell; and when the charge density at
the cell is zero the destination cell is the arithmetic mean of the six
axis-aligned neighbours of the source field. -/
theorem claim_C1 (cur upd : PoissonLattice) (i j k : Nat)
    (h1 : 1 ≤ i) (h2 : i + 1 < cur.m_xRange) (h3 : 1 ≤ j)
    (h4 : j + 1 < cur.m_yRange) (h5 : 1 ≤ k) (h6 : k + 1 < cur.m_zRange)
    (hx : upd.m_xRange = cur.m_xRange) (hy : upd.m_yRange = cur.m_yRange)
    (hz : upd.m_zRange = cur.m_zRange)
    (hlen : upd.m_potential.length
      = upd.m_xRange * upd.m_yRange * upd.m_zRange) :
    cur.nextValueJacobi i j k
      = (cur.potAt (i+1) j k + cur.potAt (i-1) j k
        + cur.potAt i (j+1) k + cur.potAt i (j-1) k
        + cur.potAt i j (k+1) + cur.potAt i j (k-1)
        + (cur.m_dx ^ 2 / cur.m_permativity)
          * cur.getChargeDensity i j k) / 6
    ∧ (jacobiUpdate cur upd).2.1.potAt i j k = cur.nextValueJacobi i j k
    ∧ (cur.getChargeDensity i j k = 0 →
        (jacobiUpdate cur upd).2.1.potAt i j k
          = (cur.potAt (i+1) j k + cur.potAt (i-1) j k
            + cur.potAt i (j+1) k + cur.potAt i (j-1) k
            + cur.potAt i j (k+1) + cur.potAt i j (k-1)) / 6) := by
  have hmain := jacobiUpdate_potAt_interior cur upd h1 h2 h3 h4 h5 h6
    hx hy hz hlen
  refine ⟨rfl, hmain, fun hzero => ?_⟩
  rw [hmain]
  unfold PoissonLattice.nextValueJacobi
  rw [hzero, mul_zero, add_zero]

theorem claim_C1_witness :
    (jacobiUpdate sampleLat3 sampleLat3).2.1.potAt 1 1 1
      = sampleLat3.nextValueJacobi 1 1 1 :=
  (claim_C1 sampleLat3 sampleLat3 1 1 1 (by decide) (by decide) (by decide)
    (by decide) (by decide) (by decide) rfl rfl rfl (by decide)).2.1

/-- C2: a boundary cell (a coordinate on any face of the grid) is never
written: each single sweep of the three update rules leaves it unchanged, any
number of iterated sweeps leaves it unchanged (for Jacobi, in both buffers,
given matching dimensions and matching boundary values as in the driver,
which iterates on a copy), and a boundary value of 0 stays 0. -/
theorem claim_C2 (L upd : PoissonLattice) (ib jb kb : Nat)
    (hib : ib < L.m_xRange) (hjb : jb < L.m_yRange) (hkb : kb < L.m_zRange)
    (hface : ib = 0 ∨ ib + 1 = L.m_xRange ∨ jb = 0 ∨ jb + 1 = L.m_yRange ∨
      kb = 0 ∨ kb + 1 = L.m_zRange) :
    (jacobiUpdate L upd).1.potAt ib jb kb = L.potAt ib jb kb
    ∧ (upd.m_xRange = L.m_xRange → upd.m_yRange = L.m_yRange →
        upd.m_zRange = L.m_zRange →
        (jacobiUpdate L upd).2.1.potAt ib jb kb = upd.potAt ib jb kb)
    ∧ (gaussSeidelUpdate L).1.potAt ib jb kb = L.potAt ib jb kb
    ∧ (∀ w : Rat, (sorUpdate w L).1.potAt ib jb kb = L.potAt ib jb kb)
    ∧ (∀ n : Nat, (stateIter gaussSeidelLoopStep n L).potAt ib jb kb
        = L.potAt ib jb kb)
    ∧ (∀ (w : Rat) (n : Nat),
        (stateIter (sorLoopStep w) n L).potAt ib jb kb = L.potAt ib jb kb)
    ∧ (upd.m_xRange = L.m_xRange → upd.m_yRange = L.m_yRange →
        upd.m_zRange = L.m_zRange →
        upd.potAt ib jb kb = L.potAt ib jb kb →
        ∀ n : Nat,
          (stateIter jacobiLoopStep n (L, upd)).1.potAt ib jb kb
            = L.potAt ib jb kb ∧
          (stateIter jacobiLoopStep n (L, upd)).2.potAt ib jb kb
            = L.potAt ib jb kb)
    ∧ (L.potAt ib jb kb = 0 →
        ∀ n : Nat,
          (stateIter gaussSeidelLoopStep n L).potAt ib jb kb = 0) := by
  refine ⟨?_, ?_, gaussSeidelUpdate_potAt_boundary L hib hjb hface,
    fun w => sorUpdate_potAt_boundary w L hib hjb hface,
    fun n => stateIter_gaussSeidel_boundary ib jb kb n L hib hjb hface,
    fun w n => stateIter_sor_boundary w ib jb kb n L hib hjb hface,
    ?_, ?_⟩
  · rw [jacobiUpdate_fst]
  · intro hx hy hz
    exact jacobiUpdate_potAt_boundary L upd (by rw [hx]; exact hib)
      (by rw [hy]; exact hjb) hx hy hz (by rw [hx, hy, hz]; exact hface)
  · intro hx hy hz hbv n
    exact stateIter_jacobi_boundary ib jb kb (L.potAt ib jb kb) n L upd
      hx hy hz hib hjb hface rfl hbv
  · intro h0 n
    rw [stateIter_gaussSeidel_boundary ib jb kb n L hib hjb hface]
    exact h0

theorem claim_C2_witness :
    (stateIter gaussSeidelLoopStep 3 sampleLat3).potAt 0 1 1
      = sampleLat3.potAt 0 1 1 :=
  (claim_C2 sampleLat3 sampleLat3 0 1 1 (by decide) (by decide) (by decide)
    (Or.inl rfl)).2.2.2.2.1 3

/-- C3: with relaxation factor 1 the SOR sweep is literally the Gauss-Seidel
sweep: identical resulting lattice and identical returned convergence
measure, and hence identical states and measures sweep-by-sweep for any
number of sweeps. -/
theorem claim_C3 :
    (∀ L : PoissonLattice, sorUpdate 1 L = gaussSeidelUpdate L)
    ∧ (∀ (n : Nat) (L : PoissonLattice),
        stateIter (sorLoopStep 1) n L = stateIter gaussSeidelLoopStep n L)
    ∧ (∀ (n : Nat) (L : PoissonLattice),
        measureSeq (sorLoopStep 1) L n
          = measureSeq gaussSeidelLoopStep L n) := by
  refine ⟨sorUpdate_one, ?_, ?_⟩
  · intro n L
    rw [sorLoopStep_one]
  · intro n L
    rw [sorLoopStep_one]

/-- C4: all three updates return
`convergenceMeasure = sum over the visited interior cells of
abs(newValue - oldValue)`, a value that is nonnegative for every input field
and every relaxation factor; in the SOR accumulation the new value is the
relaxed value `(1-w)*current + w*gsUpdate`, not the raw Gauss-Seidel value. -/
theorem claim_C4 :
    (∀ cur upd : PoissonLattice, 0 ≤ (jacobiUpdate cur upd).2.2)
    ∧ (∀ L : PoissonLattice, 0 ≤ (gaussSeidelUpdate L).2)
    ∧ (∀ (w : Rat) (L : PoissonLattice), 0 ≤ (sorUpdate w L).2)
    ∧ (∀ cur upd : PoissonLattice,
        (jacobiUpdate cur upd).2.2 = ((interiorCoords cur).map (fun c =>
          |cur.nextValueJacobi c.1 c.2.1 c.2.2
            - cur.potAt c.1 c.2.1 c.2.2|)).sum)
    ∧ (∀ (s : PoissonLattice × Rat) (c : Nat × Nat × Nat),
        (gaussSeidelStep s c).2 = s.2
          + |s.1.nextValueJacobi c.1 c.2.1 c.2.2
              - s.1.potAt c.1 c.2.1 c.2.2|)
    ∧ (∀ (w : Rat) (s : PoissonLattice × Rat) (c : Nat × Nat × Nat),
        (sorStep w s c).2 = s.2
          + |((1 - w) * s.1.potAt c.1 c.2.1 c.2.2
              + w * s.1.nextValueJacobi c.1 c.2.1 c.2.2)
            - s.1.potAt c.1 c.2.1 c.2.2|) := by
  refine ⟨fun cur upd => jacobiUpdate_measure_nonneg cur upd, ?_, ?_,
    fun cur upd => jacobiUpdate_measure cur upd,
    fun s c => rfl, fun w s c => rfl⟩
  · intro L
    exact foldl_gaussSeidelStep_measure_le _ (L, 0)
  · intro w L
    exact foldl_sorStep_measure_le w _ (L, 0)

/-- C5 counterexample: the constructor performs no validation; with the
non-positive dimension `xRange = 0` (and `yRange = zRange = 1`) the
construction succeeds (both buffers get `0*1*1 = 0` elements) instead of
being rejected. -/
theorem claim_C5_counterexample :
    ((0 : Int) ≤ 0) ∧ (PoissonLattice.construct 0 1 1 1 1).isSome = true :=
  ⟨le_refl 0, rfl⟩

/-- C5 (amended): construction performs no dimension validation.  It fails
only when the product `xRange*yRange*zRange` is negative (the signed element
count converts to an out-of-range unsigned size and the allocation throws);
any dimensions whose product is nonnegative are accepted, and for positive
dimensions the potential and charge-density buffers are zero-filled flat
sequences of size `xRange*yRange*zRange`. -/
theorem claim_C5 (xRange yRange zRange : Int) (permativity dx : Rat)
    (hx : 0 < xRange) (hy : 0 < yRange) (hz : 0 < zRange) :
    (∀ (x y z : Int) (p d : Rat),
      PoissonLattice.construct x y z p d = none ↔ x * y * z < 0)
    ∧ PoissonLattice.construct xRange yRange zRange permativity dx
      = some
        { m_xRange := xRange.toNat, m_yRange := yRange.toNat,
          m_zRange := zRange.toNat, m_permativity := permativity,
          m_dx := dx,
          m_chargeDensity := List.replicate
            (xRange.toNat * yRange.toNat * zRange.toNat) 0,
          m_potential := List.replicate
            (xRange.toNat * yRange.toNat * zRange.toNat) 0 } := by
  constructor
  · intro x y z p d
    unfold PoissonLattice.construct
    by_cases h : x * y * z < 0
    · rw [if_pos h]
      simp [h]
    · rw [if_neg h]
      simp [h]
  · have hmul : (xRange * yRange * zRange).toNat
        = xRange.toNat * yRange.toNat * zRange.toNat := by
      have h : xRange * yRange * zRange
          = ((xRange.toNat * yRange.toNat * zRange.toNat : Nat) : Int) := by
        push_cast
        rw [Int.toNat_of_nonneg hx.le, Int.toNat_of_nonneg hy.le,
          Int.toNat_of_nonneg hz.le]
      rw [h, Int.toNat_natCast]
    unfold PoissonLattice.construct
    rw [if_neg (not_lt.2 (le_of_lt (mul_pos (mul_pos hx hy) hz))), hmul]

theorem claim_C5_witness :
    PoissonLattice.construct 2 3 4 1 1
      = some { m_xRange := 2, m_yRange := 3, m_zRange := 4,
               m_permativity := 1, m_dx := 1,
               m_chargeDensity := List.replicate 24 0,
               m_potential := List.replicate 24 0 } :=
  (claim_C5 2 3 4 1 1 (by decide) (by decide) (by decide)).2

/-- C6: the cell addressing used for the potential is the flat index
`i + j*xRange + k*xRange*yRange`; the charge-density accessors use the
identical mapping; on the valid coordinate box the mapping lands inside
`[0, xRange*yRange*zRange)`, is injective, and every flat position is hit —
a bijection between valid coordinates and storage positions. -/
theorem claim_C6 (L : PoissonLattice) (i j k n : Nat)
    (hi : i < L.m_xRange) (hj : j < L.m_yRange) (hk : k < L.m_zRange)
    (hn : n < L.m_xRange * L.m_yRange * L.m_zRange) :
    chargeFlatIndex L i j k = potFlatIndex L i j k
    ∧ potFlatIndex L i j k
        = i + j * L.m_xRange + k * L.m_xRange * L.m_yRange
    ∧ L.potAt i j k = L.m_potential.getD (potFlatIndex L i j k) 0
    ∧ L.getChargeDensity i j k
        = L.m_chargeDensity.getD (potFlatIndex L i j k) 0
    ∧ potFlatIndex L i j k < L.m_xRange * L.m_yRange * L.m_zRange
    ∧ (∀ i' j' k', i' < L.m_xRange → j' < L.m_yRange → k' < L.m_zRange →
        potFlatIndex L i' j' k' = potFlatIndex L i j k →
        i' = i ∧ j' = j ∧ k' = k)
    ∧ (∃ i' j' k', i' < L.m_xRange ∧ j' < L.m_yRange ∧ k' < L.m_zRange ∧
        potFlatIndex L i' j' k' = n) := by
  refine ⟨rfl, rfl, rfl, rfl, potFlatIndex_lt L hi hj hk, ?_,
    potFlatIndex_surj L hn⟩
  intro i' j' k' hi' hj' hk' heq
  exact potFlatIndex_inj L hi' hj' hi hj heq

theorem claim_C6_witness :
    potFlatIndex sampleLat234 1 2 3
      = 1 + 2 * sampleLat234.m_xRange
        + 3 * sampleLat234.m_xRange * sampleLat234.m_yRange :=
  (claim_C6 sampleLat234 1 2 3 10 (by decide) (by decide) (by decide)
    (by decide)).2.1

/-- C7: `jacobiUpdate` never writes its source: the first reference
parameter comes back bit-for-bit identical — potential, charge density,
dimensions, permittivity and spatial step all unchanged — so no read of the
source during the sweep can observe a value written in the same sweep. -/
theorem claim_C7 (currentLattice updatedLattice : PoissonLattice) :
    (jacobiUpdate currentLattice updatedLattice).1 = currentLattice :=
  jacobiUpdate_fst currentLattice updatedLattice

/-- C8: `initialise` writes exactly the interior cells: cell `(i,j,k)`
receives `initialValue` plus the draw of rank `drawIndex L i j k` from the
supplied noise sequence (distinct interior cells consume distinct draws —
the rank map is injective), every boundary cell is left unchanged, and a
zero boundary stays zero. -/
theorem claim_C8 (L : PoissonLattice) (v0 : Rat) (g : Nat → Rat)
    (i j k : Nat)
    (h1 : 1 ≤ i) (h2 : i + 1 < L.m_xRange) (h3 : 1 ≤ j)
    (h4 : j + 1 < L.m_yRange) (h5 : 1 ≤ k) (h6 : k + 1 < L.m_zRange)
    (hlen : L.m_potential.length
      = L.m_xRange * L.m_yRange * L.m_zRange) :
    (L.initialise v0 g).potAt i j k = v0 + g (drawIndex L i j k)
    ∧ (∀ i' j' k', 1 ≤ i' → i' + 1 < L.m_xRange → 1 ≤ j' →
        j' + 1 < L.m_yRange → 1 ≤ k' → k' + 1 < L.m_zRange →
        drawIndex L i' j' k' = drawIndex L i j k →
        i' = i ∧ j' = j ∧ k' = k)
    ∧ (∀ ib jb kb : Nat, ib < L.m_xRange → jb < L.m_yRange →
        (ib = 0 ∨ ib + 1 = L.m_xRange ∨ jb = 0 ∨ jb + 1 = L.m_yRange ∨
          kb = 0 ∨ kb + 1 = L.m_zRange) →
        (L.initialise v0 g).potAt ib jb kb = L.potAt ib jb kb)
    ∧ (∀ ib jb kb : Nat, ib < L.m_xRange → jb < L.m_yRange →
        (ib = 0 ∨ ib + 1 = L.m_xRange ∨ jb = 0 ∨ jb + 1 = L.m_yRange ∨
          kb = 0 ∨ kb + 1 = L.m_zRange) →
        L.potAt ib jb kb = 0 →
        (L.initialise v0 g).potAt ib jb kb = 0) := by
  refine ⟨initialise_potAt_interior L v0 g h1 h2 h3 h4 h5 h6 hlen,
    ?_, ?_, ?_⟩
  · intro i' j' k' b1 b2 b3 b4 b5 b6 heq
    exact drawIndex_inj L h1 h2 h3 h4 h5 b1 b2 b3 b4 b5 heq
  · intro ib jb kb hib hjb hface
    exact initialise_potAt_boundary L v0 g hib hjb hface
  · intro ib jb kb hib hjb hface h0
    rw [initialise_potAt_boundary L v0 g hib hjb hface]
    exact h0

theorem claim_C8_witness :
    (sampleLat4.initialise 10 (fun n => (n : Rat))).potAt 2 1 1
      = 10 + ((drawIndex sampleLat4 2 1 1 : Nat) : Rat) :=
  (claim_C8 sampleLat4 10 (fun n => (n : Rat)) 2 1 1 (by decide) (by decide)
    (by decide) (by decide) (by decide) (by decide) (by decide)).1

/-- C9: if the driving loop returns with counter `n`, then at least one
sweep ran, the counter equals the number of sweeps performed, the final
state is the `n`-fold sweep iterate, the `n`-th sweep's measure is the first
to fall strictly below the precision (all earlier ones were at or above it);
conversely, while every sweep's measure stays at or above the precision the
loop never terminates (no iteration cap); and the per-iteration step swaps
the two buffers in the Jacobi case only. -/
theorem claim_C9 {σ : Type} (step : σ → σ × Rat) (precision : Rat)
    (fuel : Nat) (s0 s : σ) (n : Nat)
    (h : runLoop step precision fuel s0 0 = some (s, n)) :
    1 ≤ n ∧ n ≤ fuel ∧ s = stateIter step n s0
    ∧ measureSeq step s0 (n - 1) < precision
    ∧ (∀ m, m < n - 1 → precision ≤ measureSeq step s0 m)
    ∧ (∀ fuel2 : Nat,
        (∀ m, m < fuel2 → precision ≤ measureSeq step s0 m) →
        runLoop step precision fuel2 s0 0 = none)
    ∧ (∀ cur upd : PoissonLattice, jacobiLoopStep (cur, upd)
        = (((jacobiUpdate cur upd).2.1, cur), (jacobiUpdate cur upd).2.2))
    ∧ (∀ L : PoissonLattice, gaussSeidelLoopStep L = gaussSeidelUpdate L)
    ∧ (∀ (w : Rat) (L : PoissonLattice), sorLoopStep w L = sorUpdate w L) := by
  obtain ⟨c1, c2, c3, c4, c5⟩ :=
    runLoop_eq_some step precision fuel s0 0 s n h
  rw [Nat.sub_zero] at c3 c4 c5
  refine ⟨by omega, by omega, c3, c4, c5,
    fun fuel2 hall => runLoop_eq_none step precision fuel2 s0 0 hall,
    ?_, fun L => rfl, fun w L => rfl⟩
  intro cur upd
  have hfix : (jacobiUpdate cur upd).1 = cur := jacobiUpdate_fst cur upd
  show (((jacobiUpdate cur upd).2.1, (jacobiUpdate cur upd).1),
      (jacobiUpdate cur upd).2.2)
    = (((jacobiUpdate cur upd).2.1, cur), (jacobiUpdate cur upd).2.2)
  rw [hfix]

theorem claim_C9_witness :
    sampleLat234 = stateIter gaussSeidelLoopStep 1 sampleLat234 :=
  (claim_C9 gaussSeidelLoopStep 1 1 sampleLat234 sampleLat234 1 rfl).2.2.1

/-- C10: none of the three updates touches the charge density, dimensions,
permittivity or spatial step of any lattice involved — only the potential
changes — and the charge density therefore survives any number of iterated
sweeps of each method. -/
theorem claim_C10 (cur upd L : PoissonLattice) (w : Rat) :
    (jacobiUpdate cur upd).1 = cur
    ∧ (jacobiUpdate cur upd).2.1.m_chargeDensity = upd.m_chargeDensity
    ∧ (jacobiUpdate cur upd).2.1.m_xRange = upd.m_xRange
    ∧ (jacobiUpdate cur upd).2.1.m_yRange = upd.m_yRange
    ∧ (jacobiUpdate cur upd).2.1.m_zRange = upd.m_zRange
    ∧ (jacobiUpdate cur upd).2.1.m_permativity = upd.m_permativity
    ∧ (jacobiUpdate cur upd).2.1.m_dx = upd.m_dx
    ∧ (gaussSeidelUpdate L).1.m_chargeDensity = L.m_chargeDensity
    ∧ (gaussSeidelUpdate L).1.m_xRange = L.m_xRange
    ∧ (gaussSeidelUpdate L).1.m_yRange = L.m_yRange
    ∧ (gaussSeidelUpdate L).1.m_zRange = L.m_zRange
    ∧ (gaussSeidelUpdate L).1.m_permativity = L.m_permativity
    ∧ (gaussSeidelUpdate L).1.m_dx = L.m_dx
    ∧ (sorUpdate w L).1.m_chargeDensity = L.m_chargeDensity
    ∧ (sorUpdate w L).1.m_xRange = L.m_xRange
    ∧ (sorUpdate w L).1.m_yRange = L.m_yRange
    ∧ (sorUpdate w L).1.m_zRange = L.m_zRange
    ∧ (sorUpdate w L).1.m_permativity = L.m_permativity
    ∧ (sorUpdate w L).1.m_dx = L.m_dx
    ∧ (∀ n : Nat, (stateIter gaussSeidelLoopStep n L).m_chargeDensity
        = L.m_chargeDensity)
    ∧ (∀ n : Nat, (stateIter (sorLoopStep w) n L).m_chargeDensity
        = L.m_chargeDensity)
    ∧ (upd.m_chargeDensity = cur.m_chargeDensity →
        ∀ n : Nat,
          (stateIter jacobiLoopStep n (cur, upd)).1.m_chargeDensity
            = cur.m_chargeDensity ∧
          (stateIter jacobiLoopStep n (cur, upd)).2.m_chargeDensity
            = cur.m_chargeDensity) := by
  have hj := jacobiUpdate_snd_frame cur upd
  have hg := gaussSeidelUpdate_frame L
  have hs := sorUpdate_frame w L
  exact ⟨jacobiUpdate_fst cur upd, hj.2.2.2.2.2.1, hj.1, hj.2.1, hj.2.2.1,
    hj.2.2.2.1, hj.2.2.2.2.1,
    hg.2.2.2.2.2.1, hg.1, hg.2.1, hg.2.2.1, hg.2.2.2.1, hg.2.2.2.2.1,
    hs.2.2.2.2.2.1, hs.1, hs.2.1, hs.2.2.1, hs.2.2.2.1, hs.2.2.2.2.1,
    fun n => (stateIter_gaussSeidel_frame n L).2.2.2.2.2,
    fun n => (stateIter_sor_frame w n L).2.2.2.2.2,
    fun hc n => stateIter_jacobi_chargeDensity n cur upd hc⟩
